import Mathlib

/-!
Shallow embedding of the `ra_assists` handlers of this repository:
`handlers/number_representation.rs`, `handlers/split_string.rs`, and the
small data model of `lib.rs`.

Rust strings and string slices are modelled as `List Char` (UI labels are
kept as Lean `String`, they are only ever compared).  The syntax-tree
lookups that live outside these files (`find_covering_node_at_offset`,
`text_range_between_quotes`, `ancestors().nth(1)`) are modelled as inputs
carried by the context records: each handler receives the data those
external queries would have produced.
-/

/-- Half-open text range, from `ra_syntax::TextRange`.  `stop` plays the
role of the Rust `end()` (a Lean keyword). -/
structure TextRange where
  start : Nat
  stop : Nat
deriving DecidableEq

/-- `TextRange::is_subrange`: `self.start() >= other.start() && self.end() <= other.end()`. -/
def TextRange.is_subrange (r other : TextRange) : Bool :=
  other.start ≤ r.start && r.stop ≤ other.stop

/-- `AssistId` of lib.rs (a tuple struct around a static string). -/
structure AssistId where
  value : String
deriving DecidableEq

/-- `ra_syntax::ast::LiteralKind` as these handlers observe it: an integer
literal carrying its optional suffix, or any other literal kind. -/
inductive LiteralKind where
  | IntNumber (suffix : Option (List Char))
  | OtherKind
deriving DecidableEq

/-- An `ast::Literal` as the handlers see it: its kind, the raw token text
(`literal.token().text()` / `literal.syntax().text()`), and its range in
the buffer.  A handler's `ctx.find_covering_node_at_offset::<ast::Literal>()`
result is modelled as an `Option LiteralToken` input. -/
structure LiteralToken where
  kind : LiteralKind
  text : List Char
  range : TextRange
deriving DecidableEq

/-- `NumberLiteralType` of number_representation.rs. -/
inductive NumberLiteralType where
  | Decimal
  | PrefixHex
  | PrefixOctal
  | PrefixBinary
deriving DecidableEq

/-- `NumberLiteral` of number_representation.rs.  The field `pfx` models
the Rust field named after the leading base marker (a Lean keyword). -/
structure NumberLiteral where
  number_type : NumberLiteralType
  suffix : Option (List Char)
  pfx : Option (List Char)
  text : List Char
deriving DecidableEq

/-- The `fmt::Display` impl of `NumberLiteral`: base marker, then text,
then suffix. -/
def NumberLiteral.display (nl : NumberLiteral) : List Char :=
  nl.pfx.getD [] ++ nl.text ++ nl.suffix.getD []

/-- `identify_number_literal` of number_representation.rs. -/
def identify_number_literal (literal : LiteralToken) : Option NumberLiteral :=
  match literal.kind with
  | .IntNumber suffix =>
    let full_text := literal.text
    let suffix_len := (suffix.map List.length).getD 0
    let non_suffix := full_text.take (full_text.length - suffix_len)
    let maybePfx := if non_suffix.length < 2 then none else some (non_suffix.take 2)
    let pn : Option (List Char) × NumberLiteralType :=
      match maybePfx with
      | some p =>
        if p = "0x".data then (some p, .PrefixHex)
        else if p = "0b".data then (some p, .PrefixBinary)
        else if p = "0o".data then (some p, .PrefixOctal)
        else (none, .Decimal)
      | none => (none, .Decimal)
    let pfx_len := ((pn.1).map List.length).getD 0
    some { number_type := pn.2, suffix := suffix, pfx := pn.1,
           text := non_suffix.drop pfx_len }
  | _ => none

/-- `is_int_number` of number_representation.rs. -/
def is_int_number (literal : LiteralToken) : Bool :=
  match literal.kind with
  | .IntNumber _ => true
  | _ => false

/-- `remove_separator_from_string`: `str.replace("_", "")`. -/
def remove_separator_from_string (s : List Char) : List Char :=
  s.filter (fun c => c != '_')

/-- The observable content of an assist built through `ctx.add_assist` in
number_representation.rs: its id and label (lib.rs `AssistLabel` data) plus
the single `edit.replace` operation and the `edit.target` range. -/
structure Assist where
  id : AssistId
  label : String
  target : TextRange
  replaceRange : TextRange
  replaceWith : List Char
deriving DecidableEq

/-- `remove_digit_separators` of number_representation.rs.  The
`ctx.find_covering_node_at_offset::<ast::Literal>()?` lookup is the
`Option LiteralToken` argument. -/
def remove_digit_separators (ctxLiteral : Option LiteralToken) : Option Assist :=
  match ctxLiteral with
  | none => none
  | some literal =>
    if !(is_int_number literal) then none
    else if !(literal.text.contains '_') then none
    else some { id := ⟨"remove_digit_separators"⟩,
                label := "Remove digit separators",
                target := literal.range,
                replaceRange := literal.range,
                replaceWith := remove_separator_from_string literal.text }

/-- The separator-insertion loop of `separate_number`: walk the canonical
digits with index `i`, pushing a separator before the digit at `i` when
`i != 0 && (i + offset) % every == 0`. -/
def sepAux (every offset : Nat) : Nat → List Char → List Char
  | _, [] => []
  | i, c :: rest =>
    (if i ≠ 0 ∧ (i + offset) % every = 0 then ['_', c] else [c]) ++
      sepAux every offset (i + 1) rest

/-- `separate_number` of number_representation.rs. -/
def separate_number (text : List Char) (every : Nat) : List Char :=
  let without_separators := remove_separator_from_string text
  let offset := every - without_separators.length % every
  sepAux every offset 0 without_separators

/-- `SeparateNumberDetails` of number_representation.rs. -/
structure SeparateNumberDetails where
  id : AssistId
  label : String
  every : Nat
deriving DecidableEq

/-- `get_separate_number_details` of number_representation.rs. -/
def get_separate_number_details (literal : NumberLiteral) : Option SeparateNumberDetails :=
  match literal.number_type with
  | .Decimal =>
    some { id := ⟨"separate_decimal_thousands"⟩, label := "Separate thousands", every := 3 }
  | .PrefixHex =>
    some { id := ⟨"separate_hexadecimal_word"⟩, label := "Separate 16-bits words", every := 4 }
  | .PrefixBinary =>
    some { id := ⟨"separate_binary_bytes"⟩, label := "Separate bytes", every := 8 }
  | .PrefixOctal => none

/-- `separate_number_literal` of number_representation.rs. -/
def separate_number_literal (ctxLiteral : Option LiteralToken) : Option Assist :=
  match ctxLiteral with
  | none => none
  | some literal =>
    match identify_number_literal literal with
    | none => none
    | some number_literal =>
      match get_separate_number_details number_literal with
      | none => none
      | some details =>
        if number_literal.text.length < details.every then none
        else
          let result := separate_number number_literal.text details.every
          if result = number_literal.text then none
          else some { id := details.id,
                      label := details.label,
                      target := literal.range,
                      replaceRange := literal.range,
                      replaceWith :=
                        NumberLiteral.display { number_literal with text := result } }

/-!  split_string.rs  -/

/-- The node returned by `token.syntax().ancestors().nth(1)` in
split_string.rs, as far as the handler inspects it: either it casts to an
`ast::MacroCall` (constructor `mCall`, carrying the text of its `path()`
when present), or it is some other node. -/
inductive AncestorNode where
  | mCall (calleePath : Option (List Char))
  | otherNode
deriving DecidableEq

/-- The string token of split_string.rs as the handler sees it: its range,
the result of the external `text_range_between_quotes()` query, and the
result of the external `ancestors().nth(1)` query. -/
structure StrToken where
  range : TextRange
  between_quotes : Option TextRange
  ancestor : Option AncestorNode
deriving DecidableEq

/-- The inputs of `split_string`: the
`ctx.find_covering_token_at_offset(STRING)` result and `ctx.frange.range`. -/
structure SplitCtx where
  token : Option StrToken
  selection : TextRange
deriving DecidableEq

/-- `CONCAT_MACRO` of split_string.rs. -/
def concatOpen : List Char := "concat!(".data

/-- `SPLIT_SEPARATOR` of split_string.rs. -/
def SPLIT_SEPARATOR : List Char := "\", \"".data

/-- `PLUS_OFFSET` of split_string.rs. -/
def PLUS_OFFSET : Nat := 2

/-- The `need_macro` computation of split_string.rs: no second ancestor,
or an ancestor that is not a macro call, needs the wrapper; a macro call
needs it unless `path()` text (defaulting to the empty string) is
`concat`. -/
def needsWrapper (ancestor : Option AncestorNode) : Bool :=
  match ancestor with
  | none => true
  | some (.mCall calleePath) => calleePath.getD [] != "concat".data
  | some .otherNode => true

/-- Modelled from the spec: the offset translation of the Edit Composer
(`TextEdit::apply_to_offset` of the external `ra_text_edit` crate, not part
of src/): an offset is shifted by the total inserted length of all edits
at positions strictly before it.  All edits built by `split_string` are
pure insertions, so the translation is total. -/
def apply_to_offset (inserts : List (Nat × List Char)) (offset : Nat) : Nat :=
  inserts.foldl (fun acc p => if p.1 < offset then acc + p.2.length else acc) offset

/-- The observable content of the assist built by `split_string`: id and
label, the `edit.target` range, the `edit.insert` operations in the order
they were added, and the `edit.set_cursor` offset. -/
structure SplitAssist where
  id : AssistId
  label : String
  target : TextRange
  inserts : List (Nat × List Char)
  cursor : Nat
deriving DecidableEq

/-- `split_string` of split_string.rs. -/
def split_string (ctx : SplitCtx) : Option SplitAssist :=
  match ctx.token with
  | none => none
  | some token =>
    match token.between_quotes with
    | none => none
    | some bq =>
      let selection := ctx.selection
      if !(selection.is_subrange bq) then none
      else
        let token_range := token.range
        let nm := needsWrapper token.ancestor
        let inserts1 : List (Nat × List Char) :=
          if nm then [(token_range.start, concatOpen)] else []
        let inserts2 := inserts1 ++ [(selection.start, SPLIT_SEPARATOR)]
        let inserts3 := inserts2 ++
          (if selection.start ≠ selection.stop then [(selection.stop, SPLIT_SEPARATOR)] else [])
        let selection_end := apply_to_offset inserts3 selection.stop
        let inserts4 := inserts3 ++ (if nm then [(token_range.stop, [')'])] else [])
        some { id := ⟨"split_string"⟩,
               label := "Split string",
               target := token_range,
               inserts := inserts4,
               cursor := selection_end + PLUS_OFFSET }

/-- `label.starts_with(|c: char| c.is_uppercase())`, the assertion of
`AssistLabel::new` in lib.rs. -/
def starts_with_uppercase (s : String) : Bool :=
  match s.data with
  | [] => false
  | c :: _ => c.isUpper

/-!  Concrete values used by witnesses and counterexamples.  -/

/-- Decimal literal token with raw digits `1_23`. -/
def c3_literal : LiteralToken :=
  { kind := .IntNumber none, text := "1_23".data, range := ⟨17, 21⟩ }

/-- The assist `separate_number_literal` produces on `c3_literal`. -/
def c3_assist : Assist :=
  { id := ⟨"separate_decimal_thousands"⟩, label := "Separate thousands",
    target := ⟨17, 21⟩, replaceRange := ⟨17, 21⟩, replaceWith := "123".data }

/-- A hexadecimal `NumberLiteral`, `0x24204242420`. -/
def c4_hex_literal : NumberLiteral :=
  { number_type := .PrefixHex, suffix := none, pfx := some "0x".data,
    text := "24204242420".data }

/-- An octal literal token, `0o01234567`. -/
def c4_oct_literal : LiteralToken :=
  { kind := .IntNumber none, text := "0o01234567".data, range := ⟨0, 10⟩ }

/-- The `NumberLiteral` identified from `c4_oct_literal`. -/
def c4_oct_number : NumberLiteral :=
  { number_type := .PrefixOctal, suffix := none, pfx := some "0o".data,
    text := "01234567".data }

/-- Integer literal token `42_420u32`. -/
def c7_tok : LiteralToken :=
  { kind := .IntNumber (some "u32".data), text := "42_420u32".data, range := ⟨4, 13⟩ }

/-- The assist `remove_digit_separators` produces on `c7_tok`. -/
def c7_assist : Assist :=
  { id := ⟨"remove_digit_separators"⟩, label := "Remove digit separators",
    target := ⟨4, 13⟩, replaceRange := ⟨4, 13⟩, replaceWith := "42420u32".data }

/-- A string token `"random\nstring"` at offsets 8..23, sitting under a
non-macro ancestor, with a caret selection inside the quotes. -/
def ctx0 : SplitCtx :=
  { token := some { range := ⟨8, 23⟩, between_quotes := some ⟨9, 22⟩,
                    ancestor := some .otherNode },
    selection := ⟨15, 15⟩ }

/-- The token carried by `ctx0`. -/
def tok0 : StrToken :=
  { range := ⟨8, 23⟩, between_quotes := some ⟨9, 22⟩, ancestor := some .otherNode }

/-- The assist `split_string` produces on `ctx0`. -/
def a0 : SplitAssist :=
  { id := ⟨"split_string"⟩, label := "Split string", target := ⟨8, 23⟩,
    inserts := [(8, concatOpen), (15, SPLIT_SEPARATOR), (23, [')'])],
    cursor := 25 }

/-- Integer literal token `4u32` (too short to carry a base marker). -/
def c9_short_tok : LiteralToken :=
  { kind := .IntNumber (some "u32".data), text := "4u32".data, range := ⟨0, 4⟩ }

/-- A non-integer literal token. -/
def c9_other_tok : LiteralToken :=
  { kind := .OtherKind, text := "x".data, range := ⟨0, 1⟩ }

/-!  Helper lemmas about the separator algebra.  -/

theorem mem_remove_separator {c : Char} {s : List Char}
    (h : c ∈ remove_separator_from_string s) : c ≠ '_' := by
  simp only [remove_separator_from_string, List.mem_filter, bne_iff_ne, ne_eq] at h
  exact h.2

theorem remove_separator_idem (s : List Char) :
    remove_separator_from_string (remove_separator_from_string s) =
      remove_separator_from_string s := by
  simp [remove_separator_from_string, List.filter_filter]

theorem strip_cons_ne (c : Char) (l : List Char) (hc : c ≠ '_') :
    remove_separator_from_string (c :: l) = c :: remove_separator_from_string l := by
  simp [remove_separator_from_string, List.filter_cons, hc]

theorem strip_cons_underscore (l : List Char) :
    remove_separator_from_string ('_' :: l) = remove_separator_from_string l := by
  simp [remove_separator_from_string, List.filter_cons]

theorem strip_sepAux (every offset : Nat) :
    ∀ ws : List Char, (∀ c ∈ ws, c ≠ '_') → ∀ i,
      remove_separator_from_string (sepAux every offset i ws) = ws := by
  intro ws
  induction ws with
  | nil => intro _ i; simp [sepAux, remove_separator_from_string]
  | cons c rest ih =>
    intro h i
    have hc : c ≠ '_' := h c (List.mem_cons_self _ _)
    have hrest := ih (fun d hd => h d (List.mem_cons_of_mem _ hd)) (i + 1)
    by_cases hcond : i ≠ 0 ∧ (i + offset) % every = 0
    · simp only [sepAux, if_pos hcond, List.cons_append, List.nil_append]
      rw [strip_cons_underscore, strip_cons_ne c _ hc, hrest]
    · simp only [sepAux, if_neg hcond, List.cons_append, List.nil_append]
      rw [strip_cons_ne c _ hc, hrest]

theorem strip_separate_number (t : List Char) (e : Nat) :
    remove_separator_from_string (separate_number t e) =
      remove_separator_from_string t := by
  show remove_separator_from_string
      (sepAux e (e - (remove_separator_from_string t).length % e) 0
        (remove_separator_from_string t)) = remove_separator_from_string t
  exact strip_sepAux e _ _ (fun c hc => mem_remove_separator hc) 0

theorem separate_number_strip (t : List Char) (e : Nat) :
    separate_number (remove_separator_from_string t) e = separate_number t e := by
  show sepAux e
      (e - (remove_separator_from_string (remove_separator_from_string t)).length % e) 0
      (remove_separator_from_string (remove_separator_from_string t)) =
    sepAux e (e - (remove_separator_from_string t).length % e) 0
      (remove_separator_from_string t)
  rw [remove_separator_idem]

theorem sepAux_enumFrom (e o : Nat) :
    ∀ (ws : List Char) (i : Nat),
      sepAux e o i ws =
        ((ws.enumFrom i).map
          (fun p => if p.1 ≠ 0 ∧ (p.1 + o) % e = 0 then ['_', p.2] else [p.2])).flatten := by
  intro ws
  induction ws with
  | nil => intro i; simp [sepAux]
  | cons c rest ih => intro i; simp [sepAux, List.enumFrom, ih (i + 1)]

theorem sepAux_no_sep (e o : Nat) :
    ∀ (ws : List Char) (i : Nat),
      (∀ j, i ≤ j → j < i + ws.length → ¬(j ≠ 0 ∧ (j + o) % e = 0)) →
      sepAux e o i ws = ws := by
  intro ws
  induction ws with
  | nil => intro i _; simp [sepAux]
  | cons c rest ih =>
    intro i h
    simp only [List.length_cons] at h
    have h0 : ¬(i ≠ 0 ∧ (i + o) % e = 0) := h i le_rfl (by omega)
    have hrest := ih (i + 1) (fun j hj1 hj2 => h j (by omega) (by omega))
    simp [sepAux, h0, hrest]

theorem separate_number_short (t : List Char) (g : Nat) (hg : 0 < g)
    (hlen : (remove_separator_from_string t).length < g) :
    separate_number t g = remove_separator_from_string t := by
  show sepAux g (g - (remove_separator_from_string t).length % g) 0
      (remove_separator_from_string t) = remove_separator_from_string t
  apply sepAux_no_sep
  intro j hj0 hj1 hcond
  obtain ⟨hjne, hjmod⟩ := hcond
  have hmod : (remove_separator_from_string t).length % g =
      (remove_separator_from_string t).length := Nat.mod_eq_of_lt hlen
  rw [hmod] at hjmod
  have h1 : j + (g - (remove_separator_from_string t).length) < g := by omega
  rw [Nat.mod_eq_of_lt h1] at hjmod
  omega

/-- Claim C1: grouping is idempotent after stripping: for every digit
string `d` and positive group size `g`,
`separate_number (remove_separator_from_string (separate_number d g)) g`
equals `separate_number d g`. -/
theorem claim_C1 (d : List Char) (g : Nat) (hg : 0 < g) :
    separate_number (remove_separator_from_string (separate_number d g)) g =
      separate_number d g := by
  rw [strip_separate_number, separate_number_strip]

/-- Witness for C1 at the digit string `4_2_4_2_0420` and group size 3. -/
theorem claim_C1_witness :
    0 < 3 ∧
      separate_number
          (remove_separator_from_string (separate_number "4_2_4_2_0420".data 3)) 3 =
        separate_number "4_2_4_2_0420".data 3 :=
  ⟨by decide, claim_C1 "4_2_4_2_0420".data 3 (by decide)⟩

/-- Claim C2: `separate_number` strips all separators to `n` canonical
digits, computes `offset = every - n % every`, and inserts a separator
before index `i` exactly when `i ≠ 0` and `(i + offset) % every = 0`;
the two boundary examples hold, an input with fewer than `every` canonical
digits comes back as its canonical digits with no separator, and the empty
input yields the empty string. -/
theorem claim_C2 :
    (∀ (text : List Char) (every : Nat),
        separate_number text every =
          (((remove_separator_from_string text).enum).map
            (fun p =>
              if p.1 ≠ 0 ∧
                  (p.1 + (every - (remove_separator_from_string text).length % every)) %
                      every = 0
              then ['_', p.2] else [p.2])).flatten)
    ∧ separate_number "24204242420".data 4 = "242_0424_2420".data
    ∧ separate_number "123456789".data 2 = "1_23_45_67_89".data
    ∧ (∀ (text : List Char) (every : Nat), 0 < every →
        (remove_separator_from_string text).length < every →
        separate_number text every = remove_separator_from_string text)
    ∧ ∀ every : Nat, separate_number [] every = [] := by
  refine ⟨?_, by decide, by decide, ?_, ?_⟩
  · intro text every
    exact sepAux_enumFrom every
      (every - (remove_separator_from_string text).length % every)
      (remove_separator_from_string text) 0
  · intro text every hg hlen
    exact separate_number_short text every hg hlen
  · intro every; rfl

/-- Witness for C2 at the short input `4_2` with group size 3. -/
theorem claim_C2_witness :
    0 < 3 ∧ (remove_separator_from_string "4_2".data).length < 3 ∧
      separate_number "4_2".data 3 = remove_separator_from_string "4_2".data :=
  ⟨by decide, by decide, claim_C2.2.2.2.1 "4_2".data 3 (by decide) (by decide)⟩

/-- Counterexample to C3 as stated: the decimal literal with raw digits
`1_23` is applicable (the handler returns an assist) although its
canonical digit count, 3, does not exceed the group size 3 of decimals:
the gate in the code compares the raw, separator-including length against
the group size. -/
theorem claim_C3_counterexample :
    (separate_number_literal (some c3_literal)).isSome = true ∧
      identify_number_literal c3_literal = some ⟨.Decimal, none, none, "1_23".data⟩ ∧
      (remove_separator_from_string "1_23".data).length ≤ 3 := by decide

/-- Claim C3 (amended): `separate_number_literal` is applicable iff the
literal identifies as a number, its kind has grouping details, the raw
digit string (separator characters included) is at least as long as the
group size, and regrouping produces a different string; in particular it
is never applicable when the regrouped digits equal the current raw
digits. -/
theorem claim_C3 (tok : LiteralToken) :
    (separate_number_literal (some tok)).isSome = true ↔
      ∃ nl d, identify_number_literal tok = some nl ∧
        get_separate_number_details nl = some d ∧
        d.every ≤ nl.text.length ∧
        separate_number nl.text d.every ≠ nl.text := by
  cases h1 : identify_number_literal tok with
  | none => simp [separate_number_literal, h1]
  | some nl =>
    cases h2 : get_separate_number_details nl with
    | none => simp [separate_number_literal, h1, h2]
    | some d =>
      by_cases h3 : nl.text.length < d.every
      · simp only [separate_number_literal, h1, h2, if_pos h3, Option.isSome_none,
          Option.some.injEq]
        constructor
        · intro h; exact absurd h (by simp)
        · rintro ⟨nl', d', hnl, hd, hle, _⟩
          obtain rfl : nl = nl' := hnl
          obtain rfl : d = d' := by rw [h2] at hd; exact Option.some.inj hd
          omega
      · by_cases h4 : separate_number nl.text d.every = nl.text
        · simp only [separate_number_literal, h1, h2, if_neg h3, if_pos h4,
            Option.isSome_none, Option.some.injEq]
          constructor
          · intro h; exact absurd h (by simp)
          · rintro ⟨nl', d', hnl, hd, _, hne⟩
            obtain rfl : nl = nl' := hnl
            obtain rfl : d = d' := by rw [h2] at hd; exact Option.some.inj hd
            exact absurd h4 hne
        · simp only [separate_number_literal, h1, h2, if_neg h3, if_neg h4,
            Option.isSome_some, true_iff]
          exact ⟨nl, d, rfl, h2, by omega, h4⟩

/-- Counterexample to C4 as stated: the grouping details for a hexadecimal
literal carry the label `Separate 16-bits words`, not the claimed
`Separate 16-bit words`. -/
theorem claim_C4_counterexample :
    (get_separate_number_details c4_hex_literal).map (fun d => d.label) =
        some "Separate 16-bits words" ∧
      ("Separate 16-bits words" : String) ≠ "Separate 16-bit words" := by decide

/-- Claim C4 (amended): the per-kind lookup returns group size 3 with label
`Separate thousands` for decimals, group size 4 with label
`Separate 16-bits words` for hexadecimals, group size 8 with label
`Separate bytes` for binaries, and no entry for octals; consequently
`separate_number_literal` is never applicable to a literal identified as
octal. -/
theorem claim_C4 :
    (∀ nl : NumberLiteral,
      (nl.number_type = .Decimal →
        get_separate_number_details nl =
          some ⟨⟨"separate_decimal_thousands"⟩, "Separate thousands", 3⟩) ∧
      (nl.number_type = .PrefixHex →
        get_separate_number_details nl =
          some ⟨⟨"separate_hexadecimal_word"⟩, "Separate 16-bits words", 4⟩) ∧
      (nl.number_type = .PrefixBinary →
        get_separate_number_details nl =
          some ⟨⟨"separate_binary_bytes"⟩, "Separate bytes", 8⟩) ∧
      (nl.number_type = .PrefixOctal → get_separate_number_details nl = none))
    ∧ ∀ (tok : LiteralToken) (nl : NumberLiteral),
        identify_number_literal tok = some nl → nl.number_type = .PrefixOctal →
        separate_number_literal (some tok) = none := by
  constructor
  · intro nl
    refine ⟨fun h => ?_, fun h => ?_, fun h => ?_, fun h => ?_⟩ <;>
      simp [get_separate_number_details, h]
  · intro tok nl h1 h2
    simp [separate_number_literal, h1, get_separate_number_details, h2]

/-- Witness for C4 at the hexadecimal literal `0x24204242420` and the
octal literal token `0o01234567`. -/
theorem claim_C4_witness :
    get_separate_number_details c4_hex_literal =
        some ⟨⟨"separate_hexadecimal_word"⟩, "Separate 16-bits words", 4⟩ ∧
      separate_number_literal (some c4_oct_literal) = none :=
  ⟨(claim_C4.1 c4_hex_literal).2.1 (by decide),
   claim_C4.2 c4_oct_literal c4_oct_number (by decide) (by decide)⟩

/-!  Helper lemmas for split_string.  -/

theorem apply_to_offset_append_nil (l : List (Nat × List Char)) (o : Nat) :
    apply_to_offset (l ++ []) o = apply_to_offset l o := by
  rw [List.append_nil]

theorem apply_to_offset_snoc (l : List (Nat × List Char)) (p : Nat × List Char) (o : Nat)
    (h : ¬ p.1 < o) :
    apply_to_offset (l ++ [p]) o = apply_to_offset l o := by
  simp [apply_to_offset, List.foldl_append, h]

theorem needsWrapper_eq_false_iff (anc : Option AncestorNode) :
    needsWrapper anc = false ↔ anc = some (.mCall (some "concat".data)) := by
  cases anc with
  | none => simp [needsWrapper]
  | some n =>
    cases n with
    | mCall calleePath =>
      cases calleePath with
      | none => decide
      | some s => simp [needsWrapper, bne_eq_false_iff_eq]
    | otherNode => simp [needsWrapper]

theorem is_subrange_iff (r other : TextRange) :
    r.is_subrange other = true ↔ other.start ≤ r.start ∧ r.stop ≤ other.stop := by
  simp [TextRange.is_subrange]

/-- Claim C5: `split_string` produces an assist only when the covering
string token was found, its between-quotes interior exists, and the
selection is a subrange of that interior; a selection touching or crossing
a quote boundary yields no assist. -/
theorem claim_C5 (ctx : SplitCtx) (a : SplitAssist) (h : split_string ctx = some a) :
    ∃ tok bq, ctx.token = some tok ∧ tok.between_quotes = some bq ∧
      ctx.selection.is_subrange bq = true := by
  cases htok : ctx.token with
  | none => rw [split_string, htok] at h; exact Option.noConfusion h
  | some tok =>
    cases hbq : tok.between_quotes with
    | none => rw [split_string, htok] at h; simp [hbq] at h
    | some bq =>
      by_cases hsub : ctx.selection.is_subrange bq = true
      · exact ⟨tok, bq, rfl, hbq, hsub⟩
      · rw [split_string, htok] at h
        simp only [hbq] at h
        rw [Bool.not_eq_true] at hsub
        simp [hsub] at h

/-- Witness for C5: a string token at 8..23 with interior 9..22 and a
caret selection at 15 yields an assist, and the preconditions hold. -/
theorem claim_C5_witness :
    split_string ctx0 = some a0 ∧
      ∃ tok bq, ctx0.token = some tok ∧ tok.between_quotes = some bq ∧
        ctx0.selection.is_subrange bq = true :=
  ⟨by decide, claim_C5 ctx0 a0 (by decide)⟩

/-- Claim C6: for every applicable `split_string` invocation on a
well-formed token (interior inside the token), the cursor equals the
composed edit's offset translation applied to the original selection end,
plus the fixed 2-character `PLUS_OFFSET`. -/
theorem claim_C6 (ctx : SplitCtx) (a : SplitAssist) (tok : StrToken) (bq : TextRange)
    (h : split_string ctx = some a) (htok : ctx.token = some tok)
    (hbq : tok.between_quotes = some bq) (hwf : bq.stop ≤ tok.range.stop) :
    a.cursor = apply_to_offset a.inserts ctx.selection.stop + PLUS_OFFSET := by
  rw [split_string, htok] at h
  simp only [hbq] at h
  by_cases hsub : ctx.selection.is_subrange bq = true
  · simp only [hsub, Bool.not_true, Bool.false_eq_true, if_false,
      Option.some.injEq] at h
    obtain rfl := h
    dsimp only
    have hle : ctx.selection.stop ≤ bq.stop := ((is_subrange_iff _ _).mp hsub).2
    have hns : ¬ (tok.range.stop, ([')'] : List Char)).1 < ctx.selection.stop := by
      simp only; omega
    cases hnm : needsWrapper tok.ancestor
    · simp only [hnm, Bool.false_eq_true, if_false, List.append_nil]
    · simp only [hnm, if_true]
      rw [apply_to_offset_snoc _ _ _ hns]
  · rw [Bool.not_eq_true] at hsub
    simp [hsub] at h

/-- Witness for C6 at the concrete context `ctx0`. -/
theorem claim_C6_witness :
    split_string ctx0 = some a0 ∧ ctx0.token = some tok0 ∧
      tok0.between_quotes = some ⟨9, 22⟩ ∧ (22 : Nat) ≤ tok0.range.stop ∧
      a0.cursor = apply_to_offset a0.inserts ctx0.selection.stop + PLUS_OFFSET :=
  ⟨by decide, by decide, by decide, by decide,
   claim_C6 ctx0 a0 tok0 ⟨9, 22⟩ (by decide) (by decide) (by decide) (by decide)⟩

/-- Claim C8: in an applicable `split_string`, when the second ancestor is
a macro call whose path text is `concat` no wrapper text is inserted
(every insertion is the fragment separator); for any other ancestor
(including none, and macro calls with any other name) the wrapper opening
`concat!(` is inserted at the token start and `)` at the token end. -/
theorem claim_C8 (ctx : SplitCtx) (a : SplitAssist) (tok : StrToken)
    (h : split_string ctx = some a) (htok : ctx.token = some tok) :
    (tok.ancestor = some (.mCall (some "concat".data)) →
        ∀ p ∈ a.inserts, p.2 = SPLIT_SEPARATOR) ∧
      (tok.ancestor ≠ some (.mCall (some "concat".data)) →
        (tok.range.start, concatOpen) ∈ a.inserts ∧
        (tok.range.stop, [')']) ∈ a.inserts) := by
  rw [split_string, htok] at h
  cases hbq : tok.between_quotes with
  | none => simp [hbq] at h
  | some bq =>
    simp only [hbq] at h
    by_cases hsub : ctx.selection.is_subrange bq = true
    · simp only [hsub, Bool.not_true, Bool.false_eq_true, if_false,
        Option.some.injEq] at h
      obtain rfl := h
      dsimp only
      constructor
      · intro hanc
        have hnm : needsWrapper tok.ancestor = false :=
          (needsWrapper_eq_false_iff _).mpr hanc
        intro p hp
        by_cases hse : ctx.selection.start = ctx.selection.stop
        · simp [hnm, hse] at hp
          simp [hp]
        · simp [hnm, hse] at hp
          rcases hp with h1 | h2
          · simp [h1]
          · simp [h2]
      · intro hanc
        have hnm : needsWrapper tok.ancestor = true := by
          cases hna : needsWrapper tok.ancestor
          · exact absurd ((needsWrapper_eq_false_iff _).mp hna) hanc
          · rfl
        constructor
        · simp [hnm]
        · simp [hnm]
    · rw [Bool.not_eq_true] at hsub
      simp [hsub] at h

/-- Witness for C8 at the concrete context `ctx0`, whose ancestor is not a
`concat` macro call, so the wrapper is injected. -/
theorem claim_C8_witness :
    split_string ctx0 = some a0 ∧ ctx0.token = some tok0 ∧
      tok0.ancestor ≠ some (.mCall (some "concat".data)) ∧
      (tok0.range.start, concatOpen) ∈ a0.inserts ∧
      (tok0.range.stop, [')']) ∈ a0.inserts :=
  ⟨by decide, by decide, by decide,
   (claim_C8 ctx0 a0 tok0 (by decide) (by decide)).2 (by decide)⟩

/-- Claim C7: `remove_digit_separators` is applicable iff the covering
token is an integer literal whose raw text contains a separator; the
action replaces the whole token text with the separator-stripped text and
targets the whole token; the two stripping examples hold, and with no
covering literal there is no assist. -/
theorem claim_C7 :
    (∀ tok : LiteralToken,
      ((remove_digit_separators (some tok)).isSome = true ↔
        is_int_number tok = true ∧ tok.text.contains '_' = true) ∧
      ∀ a, remove_digit_separators (some tok) = some a →
        a.target = tok.range ∧ a.replaceRange = tok.range ∧
        a.replaceWith = remove_separator_from_string tok.text)
    ∧ remove_digit_separators none = none
    ∧ remove_separator_from_string "42_420u32".data = "42420u32".data
    ∧ remove_separator_from_string "0b0010_1010".data = "0b00101010".data := by
  refine ⟨?_, rfl, by decide, by decide⟩
  intro tok
  constructor
  · cases h1 : is_int_number tok <;> cases h2 : tok.text.contains '_' <;>
      simp [remove_digit_separators, h1, h2] <;> simpa using h2
  · intro a h
    cases h1 : is_int_number tok <;> cases h2 : tok.text.contains '_' <;>
      rw [remove_digit_separators] at h <;> simp only [h1, h2] at h <;>
      simp at h
    obtain rfl := h.symm
    exact ⟨rfl, rfl, rfl⟩

/-- Witness for C7 at the integer literal token `42_420u32`. -/
theorem claim_C7_witness :
    (remove_digit_separators (some c7_tok)).isSome = true ∧
      c7_assist.target = c7_tok.range ∧ c7_assist.replaceRange = c7_tok.range ∧
      c7_assist.replaceWith = remove_separator_from_string c7_tok.text :=
  ⟨((claim_C7.1 c7_tok).1).mpr (by decide),
   (claim_C7.1 c7_tok).2 c7_assist (by decide)⟩

/-- Claim C9: decomposition of an integer literal takes the suffix as the
trailing known-suffix-length characters; in the remaining text it
recognizes exactly the two-character lowercase base markers 0x / 0o / 0b
(classifying Hex / Octal / Binary); anything else, including remainders
shorter than two characters, is Decimal with no marker; and the marker
followed by the digits field reconstructs the whole text between the start
and the suffix, separators included.  Non-integer literals decompose to
none. -/
theorem claim_C9 :
    (∀ (suffix : Option (List Char)) (txt : List Char) (rng : TextRange),
      ∃ nl, identify_number_literal ⟨.IntNumber suffix, txt, rng⟩ = some nl ∧
        nl.suffix = suffix ∧
        nl.pfx.getD [] ++ nl.text =
          txt.take (txt.length - (suffix.map List.length).getD 0) ∧
        (nl.number_type = .PrefixHex ↔
          (txt.take (txt.length - (suffix.map List.length).getD 0)).take 2 = "0x".data) ∧
        (nl.number_type = .PrefixOctal ↔
          (txt.take (txt.length - (suffix.map List.length).getD 0)).take 2 = "0o".data) ∧
        (nl.number_type = .PrefixBinary ↔
          (txt.take (txt.length - (suffix.map List.length).getD 0)).take 2 = "0b".data) ∧
        ((txt.take (txt.length - (suffix.map List.length).getD 0)).length < 2 →
          nl.number_type = .Decimal ∧ nl.pfx = none) ∧
        (nl.number_type = .Decimal ↔ nl.pfx = none))
    ∧ ∀ tok : LiteralToken, is_int_number tok = false →
        identify_number_literal tok = none := by
  constructor
  · intro suffix txt rng
    have hlen_eq : (txt.take (txt.length - (suffix.map List.length).getD 0)).length =
        txt.length - (suffix.map List.length).getD 0 := by
      rw [List.length_take]; omega
    by_cases hlen : txt.length - (suffix.map List.length).getD 0 < 2
    · have hne : ∀ pat : List Char, pat.length = 2 →
          ¬ (txt.take (txt.length - (suffix.map List.length).getD 0)).take 2 = pat := by
        intro pat hpat hx
        rw [List.take_of_length_le (le_of_lt (by rw [hlen_eq]; exact hlen))] at hx
        have hl := congrArg List.length hx
        rw [hlen_eq] at hl
        omega
      refine ⟨⟨.Decimal, suffix, none,
        txt.take (txt.length - (suffix.map List.length).getD 0)⟩, ?_, rfl, ?_, ?_, ?_, ?_,
        fun _ => ⟨rfl, rfl⟩, by simp⟩
      · simp [identify_number_literal, hlen]
      · simp
      · exact iff_of_false (by simp) (hne _ (by decide))
      · exact iff_of_false (by simp) (hne _ (by decide))
      · exact iff_of_false (by simp) (hne _ (by decide))
    · by_cases hx : (txt.take (txt.length - (suffix.map List.length).getD 0)).take 2 =
          "0x".data
      · have l2 : ("0x".data).length = 2 := rfl
        refine ⟨⟨.PrefixHex, suffix, some "0x".data,
          (txt.take (txt.length - (suffix.map List.length).getD 0)).drop 2⟩, ?_, rfl, ?_,
          iff_of_true rfl hx, ?_, ?_, fun hshort => absurd (hlen_eq ▸ hshort) hlen, by simp⟩
        · simp [identify_number_literal, hlen, hx, l2]
        · have hx' : (txt.take (txt.length - (suffix.map List.length).getD 0)).take 2 =
              ['0', 'x'] := hx
          show ['0', 'x'] ++
              (txt.take (txt.length - (suffix.map List.length).getD 0)).drop 2 =
            txt.take (txt.length - (suffix.map List.length).getD 0)
          rw [← hx']
          exact List.take_append_drop 2 _
        · refine iff_of_false (by simp) (fun h2 => ?_)
          rw [hx] at h2; exact absurd h2 (by decide)
        · refine iff_of_false (by simp) (fun h2 => ?_)
          rw [hx] at h2; exact absurd h2 (by decide)
      · by_cases hb : (txt.take (txt.length - (suffix.map List.length).getD 0)).take 2 =
            "0b".data
        · have l2 : ("0b".data).length = 2 := rfl
          refine ⟨⟨.PrefixBinary, suffix, some "0b".data,
            (txt.take (txt.length - (suffix.map List.length).getD 0)).drop 2⟩, ?_, rfl, ?_,
            ?_, ?_, iff_of_true rfl hb, fun hshort => absurd (hlen_eq ▸ hshort) hlen, by simp⟩
          · simp [identify_number_literal, hlen, hx, hb, l2]
          · have hb' : (txt.take (txt.length - (suffix.map List.length).getD 0)).take 2 =
                ['0', 'b'] := hb
            show ['0', 'b'] ++
                (txt.take (txt.length - (suffix.map List.length).getD 0)).drop 2 =
              txt.take (txt.length - (suffix.map List.length).getD 0)
            rw [← hb']
            exact List.take_append_drop 2 _
          · refine iff_of_false (by simp) (fun h2 => ?_)
            rw [hb] at h2; exact absurd h2 (by decide)
          · refine iff_of_false (by simp) (fun h2 => ?_)
            rw [hb] at h2; exact absurd h2 (by decide)
        · by_cases ho : (txt.take (txt.length - (suffix.map List.length).getD 0)).take 2 =
              "0o".data
          · have l2 : ("0o".data).length = 2 := rfl
            refine ⟨⟨.PrefixOctal, suffix, some "0o".data,
              (txt.take (txt.length - (suffix.map List.length).getD 0)).drop 2⟩, ?_, rfl, ?_,
              ?_, iff_of_true rfl ho, ?_, fun hshort => absurd (hlen_eq ▸ hshort) hlen, by simp⟩
            · simp [identify_number_literal, hlen, hx, hb, ho, l2]
            · have ho' : (txt.take (txt.length - (suffix.map List.length).getD 0)).take 2 =
                  ['0', 'o'] := ho
              show ['0', 'o'] ++
                  (txt.take (txt.length - (suffix.map List.length).getD 0)).drop 2 =
                txt.take (txt.length - (suffix.map List.length).getD 0)
              rw [← ho']
              exact List.take_append_drop 2 _
            · refine iff_of_false (by simp) (fun h2 => ?_)
              rw [ho] at h2; exact absurd h2 (by decide)
            · refine iff_of_false (by simp) (fun h2 => ?_)
              rw [ho] at h2; exact absurd h2 (by decide)
          · refine ⟨⟨.Decimal, suffix, none,
              txt.take (txt.length - (suffix.map List.length).getD 0)⟩, ?_, rfl, by simp,
              iff_of_false (by simp) hx, iff_of_false (by simp) ho,
              iff_of_false (by simp) hb, fun hshort => absurd (hlen_eq ▸ hshort) hlen, by simp⟩
            simp [identify_number_literal, hlen, hx, hb, ho]
  · intro tok h
    cases hk : tok.kind with
    | IntNumber s => simp [is_int_number, hk] at h
    | OtherKind => simp [identify_number_literal, hk]

/-- Witness for C9: the hexadecimal literal `0xAB_12u32`, the short
decimal literal `4u32`, and a non-integer literal. -/
theorem claim_C9_witness :
    (∃ nl, identify_number_literal
        ⟨.IntNumber (some "u32".data), "0xAB_12u32".data, ⟨0, 10⟩⟩ = some nl ∧
      nl.number_type = .PrefixHex) ∧
    identify_number_literal c9_other_tok = none ∧
    ∃ nl, identify_number_literal c9_short_tok = some nl ∧
      nl.number_type = .Decimal ∧ nl.pfx = none := by
  refine ⟨?_, claim_C9.2 c9_other_tok (by decide), ?_⟩
  · obtain ⟨nl, h1, _, _, hhex, _, _, _, _⟩ :=
      claim_C9.1 (some "u32".data) "0xAB_12u32".data ⟨0, 10⟩
    exact ⟨nl, h1, hhex.mpr (by decide)⟩
  · obtain ⟨nl, h1, _, _, _, _, _, hshort, _⟩ :=
      claim_C9.1 (some "u32".data) "4u32".data ⟨0, 4⟩
    exact ⟨nl, h1, (hshort (by decide)).1, (hshort (by decide)).2⟩

/-- Every label carried by grouping details starts with an uppercase
character. -/
theorem details_label_uppercase (nl : NumberLiteral) (d : SeparateNumberDetails)
    (h : get_separate_number_details nl = some d) :
    starts_with_uppercase d.label = true := by
  cases hnt : nl.number_type with
  | Decimal =>
    simp only [get_separate_number_details, hnt, Option.some.injEq] at h
    subst h; decide
  | PrefixHex =>
    simp only [get_separate_number_details, hnt, Option.some.injEq] at h
    subst h; decide
  | PrefixBinary =>
    simp only [get_separate_number_details, hnt, Option.some.injEq] at h
    subst h; decide
  | PrefixOctal =>
    simp only [get_separate_number_details, hnt] at h
    exact Option.noConfusion h

/-- Claim C10: the three handlers are total functions into an optional
assist (every precondition failure is a `none`, never a fault); every
group size supplied by the details table is 3, 4 or 8 — in particular
positive, so the modulo in `separate_number` is never taken with a zero
group size at any call site — and every label these handlers construct
starts with an uppercase character, so the assertion of
`AssistLabel::new` holds. -/
theorem claim_C10 :
    (∀ (nl : NumberLiteral) (d : SeparateNumberDetails),
        get_separate_number_details nl = some d →
        (d.every = 3 ∨ d.every = 4 ∨ d.every = 8) ∧ 0 < d.every)
    ∧ (∀ (t : Option LiteralToken) (a : Assist),
        remove_digit_separators t = some a → starts_with_uppercase a.label = true)
    ∧ (∀ (t : Option LiteralToken) (a : Assist),
        separate_number_literal t = some a → starts_with_uppercase a.label = true)
    ∧ (∀ (c : SplitCtx) (a : SplitAssist),
        split_string c = some a → starts_with_uppercase a.label = true) := by
  refine ⟨?_, ?_, ?_, ?_⟩
  · intro nl d h
    cases hnt : nl.number_type with
    | Decimal =>
      simp only [get_separate_number_details, hnt, Option.some.injEq] at h
      subst h; exact ⟨Or.inl rfl, by decide⟩
    | PrefixHex =>
      simp only [get_separate_number_details, hnt, Option.some.injEq] at h
      subst h; exact ⟨Or.inr (Or.inl rfl), by decide⟩
    | PrefixBinary =>
      simp only [get_separate_number_details, hnt, Option.some.injEq] at h
      subst h; exact ⟨Or.inr (Or.inr rfl), by decide⟩
    | PrefixOctal =>
      simp only [get_separate_number_details, hnt] at h
      exact Option.noConfusion h
  · intro t a h
    cases t with
    | none => exact Option.noConfusion h
    | some lit =>
      cases h1 : is_int_number lit <;> cases h2 : lit.text.contains '_' <;>
        rw [remove_digit_separators] at h <;> simp only [h1, h2] at h <;> simp at h
      obtain rfl := h.symm
      exact (by decide : starts_with_uppercase "Remove digit separators" = true)
  · intro t a h
    cases t with
    | none => exact Option.noConfusion h
    | some lit =>
      rw [separate_number_literal] at h
      cases h1 : identify_number_literal lit with
      | none => simp [h1] at h
      | some nl =>
        simp only [h1] at h
        cases h2 : get_separate_number_details nl with
        | none => simp [h2] at h
        | some d =>
          simp only [h2] at h
          by_cases h3 : nl.text.length < d.every
          · simp [h3] at h
          · by_cases h4 : separate_number nl.text d.every = nl.text
            · simp [h3, h4] at h
            · simp only [if_neg h3, if_neg h4, Option.some.injEq] at h
              obtain rfl := h.symm
              exact details_label_uppercase nl d h2
  · intro c a h
    rw [split_string] at h
    cases h1 : c.token with
    | none => simp [h1] at h
    | some tok =>
      simp only [h1] at h
      cases h2 : tok.between_quotes with
      | none => simp [h2] at h
      | some bq =>
        simp only [h2] at h
        by_cases h3 : c.selection.is_subrange bq = true
        · simp only [h3, Bool.not_true, Bool.false_eq_true, if_false,
            Option.some.injEq] at h
          obtain rfl := h.symm
          exact (by decide : starts_with_uppercase "Split string" = true)
        · rw [Bool.not_eq_true] at h3
          simp [h3] at h

/-- Witness for C10: a hexadecimal details lookup gives a size in
{3, 4, 8}, and the labels of three concrete assists start uppercase. -/
theorem claim_C10_witness :
    ((4 = 3 ∨ 4 = 4 ∨ 4 = 8) ∧ 0 < 4) ∧
      starts_with_uppercase c7_assist.label = true ∧
      starts_with_uppercase c3_assist.label = true ∧
      starts_with_uppercase a0.label = true :=
  ⟨claim_C10.1 c4_hex_literal
      ⟨⟨"separate_hexadecimal_word"⟩, "Separate 16-bits words", 4⟩ (by decide),
   claim_C10.2.1 (some c7_tok) c7_assist (by decide),
   claim_C10.2.2.1 (some c3_literal) c3_assist (by decide),
   claim_C10.2.2.2 ctx0 a0 (by decide)⟩
